import Mathlib

/-!
# Verification of the real-time market-data distribution layer

Shallow embedding of the repository's market-data core:

* multi-timeframe trade-to-candle aggregation
  (`test_websocket_chart.html`: `getTimeframePeriod`, `aggregateTrade`,
  `processTrades`; the identical `getTimeframePeriod` also appears in
  `frontend/components/trading/ChartContainer.tsx`),
* the debounced price-update queue of `ChartContainer.tsx`
  (`queuePriceUpdate` / `processPriceUpdate`),
* the health check of `ChartContainer.tsx` (`startHealthCheck`),
* the subscription limiting of `frontend/components/markets/MarketList.tsx`,
* the subscription registry and the reconnect backoff, modelled from the
  spec where the repository ships only documentation and callers.

JavaScript numbers are modelled as exact rationals (`ℚ`); timestamps are
natural numbers of milliseconds.
-/

namespace MarketData

/-- A decoded trade tick: `{price, size, timestamp}` with `timestamp` in
milliseconds, as consumed by `aggregateTrade` in `test_websocket_chart.html`. -/
structure Trade where
  price : ℚ
  size : ℚ
  timestamp : ℕ
deriving Repr, DecidableEq

/-- Value of a digit string, as `parseInt` computes it on `match[1]`. -/
def digitsToNat (cs : List Char) : ℕ :=
  cs.foldl (fun n c => 10 * n + (c.toNat - 48)) 0

/-- The regex match `timeframe.match(/^(\d+)([mhd])$/)`: a non-empty run of
digits followed by exactly one unit character `m`, `h` or `d`.  Returns the
parsed numeric value and the unit character. -/
def matchTimeframe (s : String) : Option (ℕ × Char) :=
  match s.data.dropWhile (fun c => c.isDigit) with
  | [u] =>
    if s.data.takeWhile (fun c => c.isDigit) ≠ [] ∧ (u = 'm' ∨ u = 'h' ∨ u = 'd') then
      some (digitsToNat (s.data.takeWhile (fun c => c.isDigit)), u)
    else none
  | _ => none

/-- Seconds per unit in the `switch (unit)` of `getTimeframePeriod`
(`m → 60`, `h → 3600`, `d → 86400`, `default → 60`). -/
def unitSeconds (u : Char) : ℕ :=
  if u = 'm' then 60 else if u = 'h' then 3600 else if u = 'd' then 86400 else 60

/-- `getTimeframePeriod` from `test_websocket_chart.html` lines 128–141 and
`ChartContainer.tsx` lines 797–810: `if (!match) return 60` else the numeric
prefix times the unit factor. -/
def getTimeframePeriod (s : String) : ℕ :=
  match matchTimeframe s with
  | none => 60
  | some (v, u) => v * unitSeconds u

/-- The bucket start computed by `aggregateTrade`:
`Math.floor(trade.timestamp / 1000 / candlePeriod) * candlePeriod`,
with the float divisions modelled as exact division in `ℚ`. -/
def candleTime (tf : String) (timestampMs : ℕ) : ℕ :=
  ⌊(timestampMs : ℚ) / 1000 / (getTimeframePeriod tf : ℚ)⌋₊ * getTimeframePeriod tf

/-- The live candle object built by `aggregateTrade`
(`{timestamp, open, high, low, close, volume, trades}`; the `open` field is
renamed `open_` because `open` is a Lean keyword). -/
structure Candle where
  timestamp : ℕ
  open_ : ℚ
  high : ℚ
  low : ℚ
  close : ℚ
  volume : ℚ
  trades : ℕ
deriving Repr, DecidableEq

/-- Events observable from one ingest: the aggregator's current-candle
snapshot after the trade (`update`), and the flush of the previous candle
when the trade's bucket differs from the live candle's (`close`). -/
inductive AggEvent where
  | update (c : Candle)
  | close (c : Candle)
deriving Repr, DecidableEq

/-- The "Start new candle" branch of `aggregateTrade`:
`open = high = low = close = trade.price, volume = trade.size, trades = 1`. -/
def freshCandle (bucket : ℕ) (t : Trade) : Candle :=
  { timestamp := bucket
    open_ := t.price
    high := t.price
    low := t.price
    close := t.price
    volume := t.size
    trades := 1 }

/-- The "Update existing candle" branch of `aggregateTrade`:
`high = max(high, price)`, `low = min(low, price)`, `close = price`,
`volume += size`, `trades++`. -/
def updateCandle (c : Candle) (t : Trade) : Candle :=
  { c with
    high := max c.high t.price
    low := min c.low t.price
    close := t.price
    volume := c.volume + t.size
    trades := c.trades + 1 }

/-- `aggregateTrade` from `test_websocket_chart.html` lines 143–166, acting on
the aggregator's `currentCandle` (`none` before the first trade).  Replacing
the current candle on a bucket change is reported as a `close` of the old
candle followed by an `update` carrying the fresh one; an in-bucket trade is
reported as an `update` of the mutated candle. -/
def aggregateTrade (tf : String) (cur : Option Candle) (t : Trade) :
    Candle × List AggEvent :=
  let bucket := candleTime tf t.timestamp
  match cur with
  | none => (freshCandle bucket t, [AggEvent.update (freshCandle bucket t)])
  | some c =>
    if c.timestamp = bucket then
      (updateCandle c t, [AggEvent.update (updateCandle c t)])
    else
      (freshCandle bucket t, [AggEvent.close c, AggEvent.update (freshCandle bucket t)])

/-- `processTrades` specialised to one timeframe: feed a list of trades, in
order, through `aggregateTrade`, collecting the emitted events. -/
def ingestAll (tf : String) : Option Candle → List Trade → Option Candle × List AggEvent
  | cur, [] => (cur, [])
  | cur, t :: ts =>
    let r := aggregateTrade tf cur t
    let rest := ingestAll tf (some r.1) ts
    (rest.1, r.2 ++ rest.2)

/-- The timeframes configured in `ChartContainer.tsx`
(`['1m', '5m', '15m', '1h', '4h', '1d']`); `test_websocket_chart.html`
configures the sub-list `['1m', '5m', '15m']`. -/
def configuredTimeframes : List String := ["1m", "5m", "15m", "1h", "4h", "1d"]

/-- Written from the spec's words, for refinement comparison only: the period
in seconds is "derived from the timeframe label (m→×60, h→×3600, d→×86400)" —
the label's numeric prefix times the unit factor given by its final
character, defined when the label is a non-empty digit string followed by
`m`, `h` or `d`. -/
def specPeriodSeconds (s : String) : Option ℕ :=
  let ds := s.data.dropLast
  if ds ≠ [] ∧ ds.all (fun c => c.isDigit) then
    match s.data.getLast? with
    | some 'm' => some (digitsToNat ds * 60)
    | some 'h' => some (digitsToNat ds * 3600)
    | some 'd' => some (digitsToNat ds * 86400)
    | _ => none
  else none

/-- All trades of `ts` fall in the bucket starting at `b`. -/
def sameBucket (tf : String) (b : ℕ) (ts : List Trade) : Prop :=
  ∀ t ∈ ts, candleTime tf t.timestamp = b

/-! ### Debounced price-update queue (`ChartContainer.tsx` lines 550–658)

The refs `priceUpdateQueueRef`, `priceUpdateTimerRef` and `lastUpdateTimeRef`
become an explicit state; `setTimeout`/`clearTimeout` become a single
pending fire time, since each `queuePriceUpdate` clears any existing timer
before scheduling a new one.  Times are milliseconds. -/

/-- The mutable state of the rate-limited price-update path: the queued
latest value, the pending timer's fire time, and the time of the last
processed update (`lastUpdateTimeRef` starts at 0). -/
structure DebounceState (α : Type) where
  queued : Option α
  timerAt : Option ℕ
  lastUpdateTime : ℕ
deriving Repr, DecidableEq

def initDebounce {α : Type} : DebounceState α := ⟨none, none, 0⟩

/-- `queuePriceUpdate` (lines 641–658): store the latest value, clear any
existing timer, and schedule `processPriceUpdate` after
`Math.max(0, 250 - (Date.now() - lastUpdateTime))` (truncated subtraction
on `ℕ` is exactly `Math.max(0, ·)` here). -/
def queuePriceUpdate {α : Type} (now : ℕ) (v : α) (st : DebounceState α) :
    DebounceState α :=
  { queued := some v
    timerAt := some (now + (250 - (now - st.lastUpdateTime)))
    lastUpdateTime := st.lastUpdateTime }

/-- `processPriceUpdate` (lines 556–638), happy path: deliver the queued
value if any, record `lastUpdateTime`, and clear the queue.  With an empty
queue it returns without delivering (`if (!bidAsk) return`). -/
def processPriceUpdate {α : Type} (now : ℕ) (st : DebounceState α) :
    DebounceState α × Option (ℕ × α) :=
  match st.queued with
  | none => ({ st with timerAt := none }, none)
  | some v => (⟨none, none, now⟩, some (now, v))

/-- Events of the debounce path: a consumer-side publish (a best-bid-ask
arriving in `queuePriceUpdate`) or the pending timer firing. -/
inductive DebounceEv (α : Type) where
  | publish (t : ℕ) (v : α)
  | fire (t : ℕ)
deriving Repr, DecidableEq

def evTime {α : Type} : DebounceEv α → ℕ
  | .publish t _ => t
  | .fire t => t

def debounceStep {α : Type} (st : DebounceState α) :
    DebounceEv α → DebounceState α × Option (ℕ × α)
  | .publish t v => (queuePriceUpdate t v st, none)
  | .fire t => processPriceUpdate t st

/-- Run a sequence of events, collecting the `(time, value)` deliveries. -/
def debounceRun {α : Type} (st : DebounceState α) :
    List (DebounceEv α) → DebounceState α × List (ℕ × α)
  | [] => (st, [])
  | e :: es =>
    match debounceStep st e with
    | (st', d) =>
      match debounceRun st' es with
      | (stFin, ds) => (stFin, d.toList ++ ds)

/-- An event is admissible in a state: time is monotone, a fire happens
exactly at the pending timer's scheduled time, and no event overtakes a
pending timer (the event loop runs a due timer before later events). -/
def okEv {α : Type} (st : DebounceState α) (prev : ℕ) : DebounceEv α → Bool
  | .publish t _ =>
    decide (prev ≤ t) &&
      (match st.timerAt with
       | none => true
       | some ft => decide (t ≤ ft))
  | .fire t =>
    decide (prev ≤ t) &&
      (match st.timerAt with
       | none => false
       | some ft => decide (t = ft))

/-- A trace the event loop can actually produce from state `st`, the last
event having happened at `prev`. -/
def validTrace {α : Type} (st : DebounceState α) (prev : ℕ) :
    List (DebounceEv α) → Bool
  | [] => true
  | e :: es => okEv st prev e && validTrace (debounceStep st e).1 (evTime e) es

/-! ### Health check (`ChartContainer.tsx` lines 680–711, `startHealthCheck`) -/

/-- What one health-check tick can do to recover a stale topic. -/
inductive HealthAction where
  | queueCachedUpdate
  | resubscribeTopic
  | fullReconnect
deriving Repr, DecidableEq

/-- One tick of the `setInterval` body in `startHealthCheck`:
if no update for more than 10s while subscribed, queue the cached
best-bid-ask (when the WebSocket cache has one); if additionally no update
for more than 30s, unsubscribe and re-subscribe the topic (after 1s).
The socket itself is never torn down by this code. -/
def healthCheckTick (timeSinceLastUpdate : ℕ) (isSubscribed : Bool)
    (cacheHasBidAsk : Bool) : List HealthAction :=
  if 10000 < timeSinceLastUpdate ∧ isSubscribed then
    (if cacheHasBidAsk then [HealthAction.queueCachedUpdate] else []) ++
      (if 30000 < timeSinceLastUpdate then [HealthAction.resubscribeTopic] else [])
  else []

/-! ### Subscription Registry

Modelled from the spec: the repository ships the registry's documentation
(`websocket_diagnosis_ultrathink.md`, the WebSocket architecture analysis)
and its callers (`useWebSocketSubscription` consumers), but not the registry
implementation itself.  Definitions below follow spec §4.2 word for word:
refcounted (channel,symbol) entries, a hard cap, dedup of upstream
commands, idempotent unsubscribe. -/

/-- Modelled from the spec: one registry entry
`{channel: string, symbol: string, refcount: int}`. -/
structure Subscription where
  channel : String
  symbol : String
  refcount : ℕ
deriving Repr, DecidableEq

/-- Modelled from the spec: the registry's map plus its configured cap
(default 250). -/
structure Registry where
  subs : List Subscription
  cap : ℕ
deriving Repr, DecidableEq

/-- A command sent to the upstream exchange socket. -/
inductive UpstreamCmd where
  | subscribeCmd (channel symbol : String)
  | unsubscribeCmd (channel symbol : String)
deriving Repr, DecidableEq

def subKey (ch sym : String) (s : Subscription) : Bool :=
  s.channel == ch && s.symbol == sym

def findSub (r : Registry) (ch sym : String) : Option Subscription :=
  r.subs.find? (subKey ch sym)

/-- `activeCount()` of spec §4.2. -/
def activeCount (r : Registry) : ℕ := r.subs.length

/-- Outcome of `subscribe`: the new refcount, or the
`SubscriptionLimitExceeded` rejection. -/
inductive SubscribeResult where
  | ok (refcount : ℕ)
  | limitExceeded
deriving Repr, DecidableEq

/-- Modelled from the spec (§4.2 `subscribe`): existing key → increment
refcount, no upstream command; new key at or over the cap → fail with
`SubscriptionLimitExceeded`, no upstream command; otherwise create the entry
with refcount 1 and issue exactly one upstream subscribe command. -/
def subscribe (r : Registry) (ch sym : String) :
    Registry × SubscribeResult × List UpstreamCmd :=
  match findSub r ch sym with
  | some s =>
    ({ r with subs := r.subs.map fun x =>
        if subKey ch sym x then { x with refcount := x.refcount + 1 } else x },
     SubscribeResult.ok (s.refcount + 1), [])
  | none =>
    if r.cap ≤ activeCount r then
      (r, SubscribeResult.limitExceeded, [])
    else
      ({ r with subs := r.subs ++ [⟨ch, sym, 1⟩] },
       SubscribeResult.ok 1, [UpstreamCmd.subscribeCmd ch sym])

/-- Modelled from the spec (§4.2 `unsubscribe`): decrement the refcount,
removing the entry and issuing one upstream unsubscribe command when it
reaches 0; a missing key is a no-op. -/
def unsubscribe (r : Registry) (ch sym : String) : Registry × List UpstreamCmd :=
  match findSub r ch sym with
  | none => (r, [])
  | some s =>
    if s.refcount ≤ 1 then
      ({ r with subs := r.subs.filter fun x => !(subKey ch sym x) },
       [UpstreamCmd.unsubscribeCmd ch sym])
    else
      ({ r with subs := r.subs.map fun x =>
          if subKey ch sym x then { x with refcount := x.refcount - 1 } else x },
       [])

/-- A consumer-driven registry operation. -/
inductive RegOp where
  | sub (ch sym : String)
  | unsub (ch sym : String)
deriving Repr, DecidableEq

def applyOp (r : Registry) : RegOp → Registry
  | .sub ch sym => (subscribe r ch sym).1
  | .unsub ch sym => (unsubscribe r ch sym).1

def applyOps (r : Registry) (ops : List RegOp) : Registry :=
  ops.foldl applyOp r

/-- `subscribe` iterated `n` times for the same key, collecting every
upstream command issued and the result of the last call. -/
def subscribeTimes (r : Registry) (ch sym : String) :
    ℕ → Registry × List UpstreamCmd × Option SubscribeResult
  | 0 => (r, [], none)
  | n + 1 =>
    match subscribeTimes r ch sym n with
    | (rn, cmds, _) =>
      match subscribe rn ch sym with
      | (rn', res, newCmds) => (rn', cmds ++ newCmds, some res)

/-! ### Reconnect backoff

Modelled from the spec: the reconnect implementations live in the three
WebSocket client classes (`websocket.ts`, `lmexChartWebSocket.ts`,
`lmexOrderbookWebSocket.ts`), which are not among the source files; the
repository documents them ("Exponential backoff: 1s * 2^n (max 30s)",
"Max attempts: 5") in the WebSocket architecture analysis. -/

/-- Modelled from the spec: `min(30s, 1s * 2^attempt)` in milliseconds. -/
def backoffMillis (attempt : ℕ) : ℕ := min 30000 (1000 * 2 ^ attempt)

inductive ConnectionState where
  | disconnected | connecting | connected | reconnecting | failed
deriving Repr, DecidableEq

/-- Modelled from the spec: a Feed Connection's reconnect bookkeeping. -/
structure FeedConn where
  state : ConnectionState
  attempt : ℕ
deriving Repr, DecidableEq

def initConn : FeedConn := ⟨ConnectionState.disconnected, 0⟩

/-- Modelled from the spec: a failed (re)connect transitions to
Reconnecting and increments the consecutive-failure counter. -/
def failStep (c : FeedConn) : FeedConn :=
  ⟨ConnectionState.reconnecting, c.attempt + 1⟩

/-- Modelled from the spec: the wait before the next reconnect attempt is
`min(30s, 1s * 2^attempt)` for the current consecutive-failure count. -/
def nextWaitMillis (c : FeedConn) : ℕ := backoffMillis c.attempt

/-- Modelled from the spec: a successful reconnect resets `attempt` to 0. -/
def successStep (_ : FeedConn) : FeedConn := ⟨ConnectionState.connected, 0⟩

def applyFailures (c : FeedConn) : ℕ → FeedConn
  | 0 => c
  | n + 1 => failStep (applyFailures c n)

/-! ### Market list subscription limiting
(`frontend/components/markets/MarketList.tsx` lines 23–66) -/

/-- A ticker row as the market list consumes it; `quote_volume` is the
value of `parseFloat(t.quote_volume) || 0`. -/
structure Ticker where
  symbol : String
  quote_volume : ℚ
deriving Repr, DecidableEq

/-- The comparator `(a, b) => volumeB - volumeA`: descending volume. -/
def volDesc (a b : Ticker) : Prop := b.quote_volume ≤ a.quote_volume

instance : DecidableRel volDesc := fun a b =>
  inferInstanceAs (Decidable (b.quote_volume ≤ a.quote_volume))

instance : IsTotal Ticker volDesc := ⟨fun a b => le_total b.quote_volume a.quote_volume⟩

instance : IsTrans Ticker volDesc :=
  ⟨fun _ _ _ h1 h2 => le_trans h2 h1⟩

/-- `topMarkets`: sort by volume descending and take the top 30. -/
def topMarkets (tickers : List Ticker) : List Ticker :=
  (tickers.insertionSort volDesc).take 30

/-- `topMarketSymbols`. -/
def topMarketSymbols (tickers : List Ticker) : List String :=
  (topMarkets tickers).map (fun t => t.symbol)

/-- `selectedSymbolArray`: the selected symbol, only when there is one and
it is not already among the top markets. -/
def selectedSymbolArray (selectedSymbol : Option String) (tickers : List Ticker) :
    List String :=
  match selectedSymbol with
  | none => []
  | some s =>
    if (topMarkets tickers).any (fun t => t.symbol == s) then [] else [s]

/-- All symbols the component passes to `useWebSocketSubscription`
(the two subscription calls together). -/
def marketListSubscriptions (tickers : List Ticker) (selectedSymbol : Option String) :
    List String :=
  topMarketSymbols tickers ++ selectedSymbolArray selectedSymbol tickers

/-! ## Lemmas and theorems -/

lemma unit_not_digit {u : Char} (hu : u = 'm' ∨ u = 'h' ∨ u = 'd') :
    u.isDigit = false := by
  rcases hu with h | h | h <;> subst h <;> decide

/-- A successful front-to-back regex match is also a successful back-to-front
decomposition: the digits are everything before the final unit character. -/
lemma matchTimeframe_some {s : String} {v : ℕ} {u : Char}
    (h : matchTimeframe s = some (v, u)) :
    s.data.dropLast ≠ [] ∧ s.data.dropLast.all (fun c => c.isDigit) ∧
      s.data.getLast? = some u ∧ v = digitsToNat s.data.dropLast ∧
      (u = 'm' ∨ u = 'h' ∨ u = 'd') := by
  unfold matchTimeframe at h
  rcases hrest : s.data.dropWhile (fun c => c.isDigit) with _ | ⟨u', rest'⟩ <;>
    rw [hrest] at h
  · simp at h
  rcases rest' with _ | ⟨x, xs⟩
  · dsimp only at h
    split_ifs at h with hguard
    · obtain ⟨hdig, hunit⟩ := hguard
      obtain ⟨hv, hu⟩ : digitsToNat (s.data.takeWhile (fun c => c.isDigit)) = v ∧ u' = u := by
        simpa using h
      have hdecomp : s.data.takeWhile (fun c => c.isDigit) ++ [u'] = s.data := by
        rw [← hrest]; exact List.takeWhile_append_dropWhile ..
      have hdl : s.data.dropLast = s.data.takeWhile (fun c => c.isDigit) := by
        conv_lhs => rw [← hdecomp]
        exact List.dropLast_concat
      have hgl : s.data.getLast? = some u' := by
        conv_lhs => rw [← hdecomp]
        exact List.getLast?_concat ..
      refine ⟨?_, ?_, hu ▸ hgl, ?_, hu ▸ hunit⟩
      · rw [hdl]; exact hdig
      · rw [hdl]
        exact List.all_eq_true.2 fun c hc => (List.mem_takeWhile_imp hc)
      · rw [hdl, hv]
  · simp at h

/-- Conversely, a back-to-front decomposition yields the same front-to-back
match. -/
lemma matchTimeframe_of_decomp {s : String} {u : Char}
    (hne : s.data.dropLast ≠ []) (hdig : s.data.dropLast.all (fun c => c.isDigit))
    (hgl : s.data.getLast? = some u) (hu : u = 'm' ∨ u = 'h' ∨ u = 'd') :
    matchTimeframe s = some (digitsToNat s.data.dropLast, u) := by
  have hcs : s.data = s.data.dropLast ++ [u] :=
    (List.dropLast_append_getLast? u (Option.mem_def.2 hgl)).symm
  unfold matchTimeframe
  rw [hcs,
    List.takeWhile_append_of_pos (fun c hc => by
      simpa using List.all_eq_true.1 hdig c hc),
    List.dropWhile_append_of_pos (fun c hc => by
      simpa using List.all_eq_true.1 hdig c hc)]
  rw [List.dropWhile_cons_of_neg (by simp [unit_not_digit hu]),
    List.takeWhile_cons_of_neg (by simp [unit_not_digit hu])]
  simp [hne, hu]

/-- The code's `getTimeframePeriod` refines the spec's derivation on every
label the spec's derivation accepts, and vice versa. -/
lemma getTimeframePeriod_eq_spec {s : String} {v : ℕ} {u : Char}
    (h : matchTimeframe s = some (v, u)) :
    specPeriodSeconds s = some (getTimeframePeriod s) := by
  obtain ⟨hne, hdig, hgl, hv, hu⟩ := matchTimeframe_some h
  unfold specPeriodSeconds getTimeframePeriod
  rw [h, hgl]
  rcases hu with rfl | rfl | rfl <;> simp [hne, hdig, hv, unitSeconds]

/-- If the spec-side derivation rejects the label, so does the code's regex
match, hence `getTimeframePeriod` falls back to 60. -/
lemma matchTimeframe_eq_none {s : String}
    (h : specPeriodSeconds s = none) : matchTimeframe s = none := by
  rcases hm : matchTimeframe s with _ | ⟨v, u⟩
  · rfl
  · rw [getTimeframePeriod_eq_spec hm] at h; cases h

/-- `Math.floor(ms / 1000 / p) * p` over exact rationals equals the natural
division chain `ms / 1000 / p * p`: flooring the composite float division is
flooring in two integer stages. -/
lemma candleTime_eq_div (tf : String) (ms : ℕ) :
    candleTime tf ms =
      ms / 1000 / getTimeframePeriod tf * getTimeframePeriod tf := by
  unfold candleTime
  congr 1
  rw [div_div (α := ℚ)]
  have : ((1000 : ℚ)) * (getTimeframePeriod tf : ℚ) =
      ((1000 * getTimeframePeriod tf : ℕ) : ℚ) := by push_cast; ring
  rw [this, Nat.floor_div_eq_div, Nat.div_div_eq_div_mul]

/-! ### Invariants of in-bucket aggregation -/

lemma updateCandle_timestamp (c : Candle) (t : Trade) :
    (updateCandle c t).timestamp = c.timestamp := rfl

/-- Feeding only in-bucket trades takes the "Update existing candle" branch
throughout, so `ingestAll` is a left fold of `updateCandle`. -/
lemma ingestAll_sameBucket (tf : String) (c : Candle) (ts : List Trade)
    (h : sameBucket tf c.timestamp ts) :
    (ingestAll tf (some c) ts).1 = some (ts.foldl updateCandle c) := by
  induction ts generalizing c with
  | nil => rfl
  | cons t ts ih =>
    have hb : candleTime tf t.timestamp = c.timestamp := h t (by simp)
    have hrest : sameBucket tf (updateCandle c t).timestamp ts := by
      intro x hx
      rw [updateCandle_timestamp]
      exact h x (by simp [hx])
    simp only [ingestAll, aggregateTrade, hb, if_pos rfl]
    exact ih (updateCandle c t) hrest

lemma foldl_updateCandle_timestamp (c : Candle) (ts : List Trade) :
    (ts.foldl updateCandle c).timestamp = c.timestamp := by
  induction ts generalizing c with
  | nil => rfl
  | cons t ts ih => simpa using ih (updateCandle c t)

lemma foldl_updateCandle_open (c : Candle) (ts : List Trade) :
    (ts.foldl updateCandle c).open_ = c.open_ := by
  induction ts generalizing c with
  | nil => rfl
  | cons t ts ih => simpa using ih (updateCandle c t)

lemma foldl_updateCandle_close (c : Candle) (ts : List Trade) :
    (ts.foldl updateCandle c).close = (ts.map Trade.price).getLastD c.close := by
  induction ts generalizing c with
  | nil => rfl
  | cons t ts ih =>
    rw [List.foldl_cons, ih, List.map_cons, List.getLastD_cons]
    rfl

lemma foldl_updateCandle_volume (c : Candle) (ts : List Trade) :
    (ts.foldl updateCandle c).volume = c.volume + (ts.map Trade.size).sum := by
  induction ts generalizing c with
  | nil => simp
  | cons t ts ih =>
    rw [List.foldl_cons, ih]
    simp [updateCandle, add_assoc]

lemma foldl_updateCandle_trades (c : Candle) (ts : List Trade) :
    (ts.foldl updateCandle c).trades = c.trades + ts.length := by
  induction ts generalizing c with
  | nil => rfl
  | cons t ts ih =>
    rw [List.foldl_cons, ih]
    simp [updateCandle]
    omega

lemma foldl_updateCandle_high_le (c : Candle) (ts : List Trade) :
    c.high ≤ (ts.foldl updateCandle c).high := by
  induction ts generalizing c with
  | nil => exact le_rfl
  | cons t ts ih =>
    exact le_trans (le_max_left _ _) (ih (updateCandle c t))

lemma foldl_updateCandle_le_low (c : Candle) (ts : List Trade) :
    (ts.foldl updateCandle c).low ≤ c.low := by
  induction ts generalizing c with
  | nil => exact le_rfl
  | cons t ts ih =>
    exact le_trans (ih (updateCandle c t)) (min_le_left _ _)

lemma foldl_updateCandle_price_le_high (c : Candle) (ts : List Trade) :
    ∀ t ∈ ts, t.price ≤ (ts.foldl updateCandle c).high := by
  induction ts generalizing c with
  | nil => intro t ht; cases ht
  | cons t ts ih =>
    intro x hx
    rcases List.mem_cons.1 hx with rfl | hx
    · exact le_trans (le_max_right _ _) (foldl_updateCandle_high_le (updateCandle c x) ts)
    · exact ih (updateCandle c t) x hx

lemma foldl_updateCandle_low_le_price (c : Candle) (ts : List Trade) :
    ∀ t ∈ ts, (ts.foldl updateCandle c).low ≤ t.price := by
  induction ts generalizing c with
  | nil => intro t ht; cases ht
  | cons t ts ih =>
    intro x hx
    rcases List.mem_cons.1 hx with rfl | hx
    · exact le_trans (foldl_updateCandle_le_low (updateCandle c x) ts) (min_le_right _ _)
    · exact ih (updateCandle c t) x hx

lemma foldl_updateCandle_high_mem (c : Candle) (ts : List Trade) :
    (ts.foldl updateCandle c).high = c.high ∨
      ∃ t ∈ ts, (ts.foldl updateCandle c).high = t.price := by
  induction ts generalizing c with
  | nil => exact Or.inl rfl
  | cons t ts ih =>
    rcases ih (updateCandle c t) with h | ⟨x, hx, h⟩
    · rcases max_choice c.high t.price with hm | hm
      · exact Or.inl (by rw [List.foldl_cons, h]; exact hm)
      · exact Or.inr ⟨t, by simp, by rw [List.foldl_cons, h]; exact hm⟩
    · exact Or.inr ⟨x, by simp [hx], by rw [List.foldl_cons, h]⟩

lemma foldl_updateCandle_low_mem (c : Candle) (ts : List Trade) :
    (ts.foldl updateCandle c).low = c.low ∨
      ∃ t ∈ ts, (ts.foldl updateCandle c).low = t.price := by
  induction ts generalizing c with
  | nil => exact Or.inl rfl
  | cons t ts ih =>
    rcases ih (updateCandle c t) with h | ⟨x, hx, h⟩
    · rcases min_choice c.low t.price with hm | hm
      · exact Or.inl (by rw [List.foldl_cons, h]; exact hm)
      · exact Or.inr ⟨t, by simp, by rw [List.foldl_cons, h]; exact hm⟩
    · exact Or.inr ⟨x, by simp [hx], by rw [List.foldl_cons, h]⟩

lemma map_getLastD {α β : Type} (f : α → β) (l : List α) (a : α) :
    (l.map f).getLastD (f a) = f (l.getLastD a) := by
  induction l generalizing a with
  | nil => rfl
  | cons x xs ih => rw [List.map_cons, List.getLastD_cons, List.getLastD_cons, ih]

lemma getLastD_mem {α : Type} (a : α) (l : List α) : l.getLastD a ∈ a :: l := by
  rcases l with _ | ⟨x, xs⟩
  · simp
  · rw [List.getLastD_eq_getLast?, List.getLast?_eq_getLast _ (List.cons_ne_nil x xs)]
    exact List.mem_cons_of_mem a (List.getLast_mem _)

lemma ingestAll_fst_cons (tf : String) (cur : Option Candle) (t : Trade) (ts : List Trade) :
    (ingestAll tf cur (t :: ts)).1 = (ingestAll tf (some (aggregateTrade tf cur t).1) ts).1 := rfl

lemma getTimeframePeriod_1m : getTimeframePeriod "1m" = 60 := by decide

lemma candleTime_1m (ms : ℕ) : candleTime "1m" ms = ms / 1000 / 60 * 60 := by
  rw [candleTime_eq_div, getTimeframePeriod_1m]

/-! ### Claim theorems: aggregation -/

/-- C1: ingesting the trades `[(t=0s, p=10), (t=30s, p=12), (t=65s, p=9)]`
(timestamps in milliseconds, arbitrary sizes `s1 s2 s3`) into a 60-second
(`"1m"`) aggregator emits an update snapshot at t=0 with
open=high=low=close=10, an update at t=30 with open=10, high=12, low=10,
close=12, then a close of the bucket starting at 0 followed by a fresh open
at t=65 with open=high=low=close=9, volume = the trade's size and
tradeCount = 1. -/
theorem aggregation_scenario_correct (s1 s2 s3 : ℚ) :
    ingestAll "1m" none [⟨10, s1, 0⟩, ⟨12, s2, 30000⟩, ⟨9, s3, 65000⟩] =
      (some ⟨60, 9, 9, 9, 9, s3, 1⟩,
       [AggEvent.update ⟨0, 10, 10, 10, 10, s1, 1⟩,
        AggEvent.update ⟨0, 10, 12, 10, 12, s1 + s2, 2⟩,
        AggEvent.close ⟨0, 10, 12, 10, 12, s1 + s2, 2⟩,
        AggEvent.update ⟨60, 9, 9, 9, 9, s3, 1⟩]) := by
  have h0 : candleTime "1m" 0 = 0 := by rw [candleTime_1m]
  have h30 : candleTime "1m" 30000 = 0 := by rw [candleTime_1m]
  have h65 : candleTime "1m" 65000 = 60 := by rw [candleTime_1m]
  simp [ingestAll, aggregateTrade, h0, h30, h65, freshCandle, updateCandle]
  norm_num

/-- C5: for every trade and every configured timeframe, the bucket start the
code computes — `Math.floor(ms / 1000 / periodSeconds) * periodSeconds` over
floats — equals `floor(timestampSeconds / periodSeconds) * periodSeconds` in
integer arithmetic, and the period is the label's numeric prefix times the
unit factor (m→×60, h→×3600, d→×86400, per `specPeriodSeconds`). -/
theorem bucket_start_correct (t : Trade) (tf : String)
    (htf : tf ∈ configuredTimeframes) :
    candleTime tf t.timestamp =
      t.timestamp / 1000 / getTimeframePeriod tf * getTimeframePeriod tf ∧
    specPeriodSeconds tf = some (getTimeframePeriod tf) := by
  refine ⟨candleTime_eq_div tf t.timestamp, ?_⟩
  fin_cases htf <;> decide

/-- Witness for C5 at the concrete trade `(p=9, size=1, t=65000ms)` and
timeframe `"1m"`. -/
theorem bucket_start_correct_witness :
    ("1m" ∈ configuredTimeframes) ∧
    (candleTime "1m" 65000 =
        65000 / 1000 / getTimeframePeriod "1m" * getTimeframePeriod "1m" ∧
      specPeriodSeconds "1m" = some (getTimeframePeriod "1m")) :=
  ⟨by decide, bucket_start_correct ⟨9, 1, 65000⟩ "1m" (by decide)⟩

/-- C8: for a non-empty in-bucket trade sequence `t0 :: rest`, the live
candle after ingesting it has open = first price, close = last price, high =
a maximal price, low = a minimal price, volume = sum of sizes, trade count =
number of trades, and `low ≤ open, close ≤ high`.  The hypothesis
`0 < getTimeframePeriod tf` scopes the claim to timeframes with a positive
period (for a zero period the JavaScript arithmetic degenerates to `NaN`
buckets, which the integer model does not represent). -/
theorem candle_invariant (tf : String) (t0 : Trade) (rest : List Trade)
    (hpos : 0 < getTimeframePeriod tf)
    (hb : sameBucket tf (candleTime tf t0.timestamp) rest) :
    ∃ c : Candle,
      (ingestAll tf none (t0 :: rest)).1 = some c ∧
      c.timestamp = candleTime tf t0.timestamp ∧
      c.open_ = t0.price ∧
      c.close = ((t0 :: rest).getLast (List.cons_ne_nil t0 rest)).price ∧
      (∀ t ∈ t0 :: rest, c.low ≤ t.price ∧ t.price ≤ c.high) ∧
      (∃ t ∈ t0 :: rest, c.high = t.price) ∧
      (∃ t ∈ t0 :: rest, c.low = t.price) ∧
      c.volume = ((t0 :: rest).map Trade.size).sum ∧
      c.trades = (t0 :: rest).length ∧
      c.low ≤ c.open_ ∧ c.open_ ≤ c.high ∧ c.low ≤ c.close ∧ c.close ≤ c.high := by
  set c0 := freshCandle (candleTime tf t0.timestamp) t0 with hc0
  set c := rest.foldl updateCandle c0 with hc
  have hb0 : sameBucket tf c0.timestamp rest := fun t ht => hb t ht
  have hopen : c.open_ = t0.price := by rw [hc, foldl_updateCandle_open]; rfl
  have hclose : c.close = (rest.getLastD t0).price := by
    rw [hc, foldl_updateCandle_close]
    have h1 : c0.close = t0.price := rfl
    rw [h1, ← map_getLastD Trade.price rest t0]
  have hbounds : ∀ t ∈ t0 :: rest, c.low ≤ t.price ∧ t.price ≤ c.high := by
    intro t ht
    rcases List.mem_cons.1 ht with rfl | ht
    · exact ⟨le_trans (foldl_updateCandle_le_low c0 rest) le_rfl,
        le_trans le_rfl (foldl_updateCandle_high_le c0 rest)⟩
    · exact ⟨foldl_updateCandle_low_le_price c0 rest t ht,
        foldl_updateCandle_price_le_high c0 rest t ht⟩
  have hlastmem : rest.getLastD t0 ∈ t0 :: rest := getLastD_mem t0 rest
  refine ⟨c, ?_, ?_, hopen, ?_, hbounds, ?_, ?_, ?_, ?_, ?_, ?_, ?_, ?_⟩
  · rw [ingestAll_fst_cons]
    exact ingestAll_sameBucket tf c0 rest hb0
  · rw [hc, foldl_updateCandle_timestamp]; rfl
  · rw [hclose, List.getLast_eq_getLastD]
  · rcases foldl_updateCandle_high_mem c0 rest with h | ⟨t, ht, h⟩
    · exact ⟨t0, by simp, by rw [hc, h]; rfl⟩
    · exact ⟨t, by simp [ht], by rw [hc, h]⟩
  · rcases foldl_updateCandle_low_mem c0 rest with h | ⟨t, ht, h⟩
    · exact ⟨t0, by simp, by rw [hc, h]; rfl⟩
    · exact ⟨t, by simp [ht], by rw [hc, h]⟩
  · rw [hc, foldl_updateCandle_volume]
    simp [hc0, freshCandle]
  · rw [hc, foldl_updateCandle_trades]
    simp [hc0, freshCandle]
    omega
  · rw [hopen]; exact (hbounds t0 (by simp)).1
  · rw [hopen]; exact (hbounds t0 (by simp)).2
  · rw [hclose]; exact (hbounds _ hlastmem).1
  · rw [hclose]; exact (hbounds _ hlastmem).2

/-- Witness for C8 at the concrete in-bucket trades
`[(p=10, s=1, t=0ms), (p=12, s=2, t=30000ms)]` with timeframe `"1m"`. -/
theorem candle_invariant_witness :
    0 < getTimeframePeriod "1m" ∧
    sameBucket "1m" (candleTime "1m" (0 : ℕ))
      [(⟨12, 2, 30000⟩ : Trade)] ∧
    (∃ c : Candle,
      (ingestAll "1m" none [⟨10, 1, 0⟩, ⟨12, 2, 30000⟩]).1 = some c ∧
      c.timestamp = candleTime "1m" (Trade.mk 10 1 0).timestamp ∧
      c.open_ = (Trade.mk 10 1 0).price ∧
      c.close = (([⟨10, 1, 0⟩, ⟨12, 2, 30000⟩] :
          List Trade).getLast (List.cons_ne_nil _ _)).price ∧
      (∀ t ∈ ([⟨10, 1, 0⟩, ⟨12, 2, 30000⟩] : List Trade),
        c.low ≤ t.price ∧ t.price ≤ c.high) ∧
      (∃ t ∈ ([⟨10, 1, 0⟩, ⟨12, 2, 30000⟩] : List Trade), c.high = t.price) ∧
      (∃ t ∈ ([⟨10, 1, 0⟩, ⟨12, 2, 30000⟩] : List Trade), c.low = t.price) ∧
      c.volume = (([⟨10, 1, 0⟩, ⟨12, 2, 30000⟩] : List Trade).map Trade.size).sum ∧
      c.trades = ([⟨10, 1, 0⟩, ⟨12, 2, 30000⟩] : List Trade).length ∧
      c.low ≤ c.open_ ∧ c.open_ ≤ c.high ∧ c.low ≤ c.close ∧ c.close ≤ c.high) := by
  have hb : sameBucket "1m" (candleTime "1m" (0 : ℕ)) [(⟨12, 2, 30000⟩ : Trade)] := by
    intro t ht
    simp only [List.mem_singleton] at ht
    subst ht
    rw [candleTime_1m, candleTime_1m]
    rfl
  exact ⟨by decide, hb, candle_invariant "1m" ⟨10, 1, 0⟩ [⟨12, 2, 30000⟩] (by decide) hb⟩

/-- C9: a timeframe label the pattern `^(\d+)([mhd])$` rejects (equivalently,
one the spec-side derivation `specPeriodSeconds` rejects) makes
`getTimeframePeriod` return the default 60 — totally, without an error — so
such labels are aggregated as 1-minute buckets. -/
theorem unrecognized_timeframe_defaults (s : String)
    (h : specPeriodSeconds s = none) :
    getTimeframePeriod s = 60 ∧ ∀ ms : ℕ, candleTime s ms = ms / 1000 / 60 * 60 := by
  have h60 : getTimeframePeriod s = 60 := by
    unfold getTimeframePeriod
    rw [matchTimeframe_eq_none h]
  exact ⟨h60, fun ms => by rw [candleTime_eq_div, h60]⟩

/-- Witness for C9 at the labels `""`, `"1w"` and `"abc"`. -/
theorem unrecognized_timeframe_defaults_witness :
    specPeriodSeconds "" = none ∧ specPeriodSeconds "1w" = none ∧
    specPeriodSeconds "abc" = none ∧
    getTimeframePeriod "" = 60 ∧ getTimeframePeriod "1w" = 60 ∧
    getTimeframePeriod "abc" = 60 :=
  ⟨by decide, by decide, by decide,
    (unrecognized_timeframe_defaults "" (by decide)).1,
    (unrecognized_timeframe_defaults "1w" (by decide)).1,
    (unrecognized_timeframe_defaults "abc" (by decide)).1⟩

/-! ### Claim theorems: debounce (`queuePriceUpdate` / `processPriceUpdate`) -/

lemma debounceRun_spacing {α : Type} (evs : List (DebounceEv α)) :
    ∀ (st : DebounceState α) (prev : ℕ),
      validTrace st prev evs = true →
      st.lastUpdateTime ≤ prev →
      (∀ ft, st.timerAt = some ft → st.lastUpdateTime + 250 ≤ ft) →
      List.Chain' (fun a b => a.1 + 250 ≤ b.1) (debounceRun st evs).2 ∧
        ∀ d ∈ (debounceRun st evs).2, st.lastUpdateTime + 250 ≤ d.1 := by
  induction evs with
  | nil =>
    intro st prev _ _ _
    simp [debounceRun]
  | cons e es ih =>
    intro st prev hval hlast htimer
    rw [validTrace, Bool.and_eq_true] at hval
    obtain ⟨hok, hval⟩ := hval
    cases e with
    | publish t v =>
      rw [okEv, Bool.and_eq_true, decide_eq_true_eq] at hok
      obtain ⟨hpt, _⟩ := hok
      have hstep : (debounceStep st (DebounceEv.publish t v)).1 = queuePriceUpdate t v st := rfl
      rw [hstep] at hval
      have ihr := ih (queuePriceUpdate t v st) t hval
        (by simp [queuePriceUpdate]; omega)
        (by
          intro ft hft
          simp [queuePriceUpdate] at hft
          simp [queuePriceUpdate]
          omega)
      have hruns : debounceRun st (DebounceEv.publish t v :: es) =
          (((debounceRun (queuePriceUpdate t v st) es).1),
            (debounceRun (queuePriceUpdate t v st) es).2) := rfl
      rw [hruns]
      simp only [queuePriceUpdate] at ihr
      exact ⟨ihr.1, fun d hd => ihr.2 d hd⟩
    | fire t =>
      rcases hft : st.timerAt with _ | ft
      · rw [okEv, hft, Bool.and_eq_true] at hok
        exact absurd hok.2 (by simp)
      · rw [okEv, hft, Bool.and_eq_true, decide_eq_true_eq, decide_eq_true_eq] at hok
        obtain ⟨hpt, htf⟩ := hok
        subst htf
        have hbound := htimer t hft
        rcases hq : st.queued with _ | v
        · have hstep : debounceStep st (DebounceEv.fire t) =
              ({ st with timerAt := none }, none) := by
            simp [debounceStep, processPriceUpdate, hq]
          have hruns : debounceRun st (DebounceEv.fire t :: es) =
              ((debounceRun { st with timerAt := none } es).1,
                (debounceRun { st with timerAt := none } es).2) := by
            rw [debounceRun, hstep]
            simp
          rw [hruns]
          have ihr := ih { st with timerAt := none } t
            (by rw [evTime] at hval; rw [hstep] at hval; exact hval)
            (by simp; omega)
            (by intro ft hft'; simp at hft')
          exact ihr
        · have hstep : debounceStep st (DebounceEv.fire t) =
              ((⟨none, none, t⟩ : DebounceState α), some (t, v)) := by
            simp [debounceStep, processPriceUpdate, hq]
          have hruns : debounceRun st (DebounceEv.fire t :: es) =
              ((debounceRun (⟨none, none, t⟩ : DebounceState α) es).1,
                (t, v) :: (debounceRun (⟨none, none, t⟩ : DebounceState α) es).2) := by
            rw [debounceRun, hstep]
            simp
          rw [hruns]
          have ihr := ih (⟨none, none, t⟩ : DebounceState α) t
            (by rw [evTime] at hval; rw [hstep] at hval; exact hval)
            le_rfl
            (by intro ft hft'; simp at hft')
          constructor
          · rw [List.chain'_cons']
            refine ⟨?_, ihr.1⟩
            intro b hb
            have := ihr.2 b (List.mem_of_mem_head? hb)
            simp at this
            omega
          · intro d hd
            rcases List.mem_cons.1 hd with rfl | hd
            · exact hbound
            · have := ihr.2 d hd
              simp at this
              omega

/-- C2 counterexample: `v1 = 1` is published at t=1000 and `v2 = 2` at
t=1100, less than 250 ms apart, on a fresh topic (no delivery in the
preceding 250 ms).  The code delivers `v1` immediately (zero remaining
delay) and `v2` at t=1250: two deliveries, with `v1` delivered — not
"exactly one value, namely v2". -/
theorem debounce_two_publishes_two_deliveries :
    1100 - 1000 < 250 ∧
    validTrace (initDebounce (α := ℕ)) 0
      [DebounceEv.publish 1000 1, DebounceEv.fire 1000,
       DebounceEv.publish 1100 2, DebounceEv.fire 1250] = true ∧
    (debounceRun (initDebounce (α := ℕ))
      [DebounceEv.publish 1000 1, DebounceEv.fire 1000,
       DebounceEv.publish 1100 2, DebounceEv.fire 1250]).2 =
      [(1000, 1), (1250, 2)] ∧
    (debounceRun (initDebounce (α := ℕ))
      [DebounceEv.publish 1000 1, DebounceEv.fire 1000,
       DebounceEv.publish 1100 2, DebounceEv.fire 1250]).2.length = 2 ∧
    1 ∈ ((debounceRun (initDebounce (α := ℕ))
      [DebounceEv.publish 1000 1, DebounceEv.fire 1000,
       DebounceEv.publish 1100 2, DebounceEv.fire 1250]).2.map Prod.snd) :=
  ⟨by decide, by decide, by decide, by decide, by decide⟩

/-- C2 amended: (i) when `v1` and then `v2` are published less than 250 ms
apart **and `v2` arrives no later than `v1`'s scheduled delivery** (so the
pending value is replaced before the timer fires), exactly one value is
delivered — `v2` — at the interval boundary `max(t2, lastDelivery + 250)`,
which is at or after `lastDelivery + 250`; `v1` is never delivered.
(ii) In any trace the event loop can produce, consecutive deliveries are at
least 250 ms apart: never more than one delivery per interval per topic. -/
theorem debounce_coalesces :
    (∀ (L t1 t2 v1 v2 : ℕ), L ≤ t1 → t1 ≤ t2 → t2 < t1 + 250 →
      t2 ≤ t1 + (250 - (t1 - L)) →
      validTrace (⟨none, none, L⟩ : DebounceState ℕ) L
        [DebounceEv.publish t1 v1, DebounceEv.publish t2 v2,
         DebounceEv.fire (t2 + (250 - (t2 - L)))] = true ∧
      (debounceRun (⟨none, none, L⟩ : DebounceState ℕ)
        [DebounceEv.publish t1 v1, DebounceEv.publish t2 v2,
         DebounceEv.fire (t2 + (250 - (t2 - L)))]).2 =
        [(t2 + (250 - (t2 - L)), v2)] ∧
      L + 250 ≤ t2 + (250 - (t2 - L))) ∧
    (∀ (evs : List (DebounceEv ℕ)) (prev : ℕ),
      validTrace (initDebounce (α := ℕ)) prev evs = true →
      List.Chain' (fun a b => a.1 + 250 ≤ b.1)
        (debounceRun (initDebounce (α := ℕ)) evs).2) := by
  constructor
  · intro L t1 t2 v1 v2 hL h12 hlt hpend
    refine ⟨?_, ?_, ?_⟩
    · simp [validTrace, okEv, debounceStep, queuePriceUpdate, evTime]
      omega
    · simp [debounceRun, debounceStep, queuePriceUpdate, processPriceUpdate]
    · omega
  · intro evs prev hval
    exact (debounceRun_spacing evs (initDebounce (α := ℕ)) prev hval
      (Nat.zero_le prev) (fun ft hft => by simp [initDebounce] at hft)).1

/-- Witness for C2 amended: concrete coalescing at `L=0, t1=100, t2=200`
with `v1=7, v2=9` (single delivery `(250, 9)`), and the spacing invariant on
a concrete two-event trace. -/
theorem debounce_coalesces_witness :
    ((0 : ℕ) ≤ 100 ∧ (100 : ℕ) ≤ 200 ∧ (200 : ℕ) < 100 + 250 ∧
      (200 : ℕ) ≤ 100 + (250 - (100 - 0))) ∧
    (validTrace (⟨none, none, 0⟩ : DebounceState ℕ) 0
        [DebounceEv.publish 100 7, DebounceEv.publish 200 9,
         DebounceEv.fire (200 + (250 - (200 - 0)))] = true ∧
      (debounceRun (⟨none, none, 0⟩ : DebounceState ℕ)
        [DebounceEv.publish 100 7, DebounceEv.publish 200 9,
         DebounceEv.fire (200 + (250 - (200 - 0)))]).2 =
        [(200 + (250 - (200 - 0)), 9)] ∧
      0 + 250 ≤ 200 + (250 - (200 - 0))) ∧
    List.Chain' (fun a b => a.1 + 250 ≤ b.1)
      (debounceRun (initDebounce (α := ℕ))
        [DebounceEv.publish 1000 1, DebounceEv.fire 1000]).2 :=
  ⟨⟨by decide, by decide, by decide, by decide⟩,
    debounce_coalesces.1 0 100 200 7 9 (by decide) (by decide) (by decide) (by decide),
    debounce_coalesces.2 [DebounceEv.publish 1000 1, DebounceEv.fire 1000] 0 (by decide)⟩

/-! ### Claim theorems: reconnect backoff -/

lemma applyFailures_attempt (c : FeedConn) (n : ℕ) :
    (applyFailures c n).attempt = c.attempt + n := by
  induction n with
  | zero => rfl
  | succ n ih => simp [applyFailures, failStep, ih]; omega

/-- C4: after `n ≤ 6` consecutive reconnection failures from a fresh
connection, the wait before the next attempt is `min(30s, 1s·2^n)` —
explicitly `1s·2^n` for `n ≤ 4` and capped at 30s for `n ∈ {5, 6}` — and a
successful reconnect resets the attempt counter to 0 (making the next wait
1s again). -/
theorem reconnect_backoff_bound (n : ℕ) (hn : n ≤ 6) :
    nextWaitMillis (applyFailures initConn n) = min 30000 (1000 * 2 ^ n) ∧
    nextWaitMillis (applyFailures initConn n) =
      (if n ≤ 4 then 1000 * 2 ^ n else 30000) ∧
    (successStep (applyFailures initConn n)).attempt = 0 ∧
    nextWaitMillis (successStep (applyFailures initConn n)) = 1000 := by
  interval_cases n <;> refine ⟨by decide, by decide, rfl, rfl⟩

/-- Witness for C4 at `n = 6`: the wait is capped at 30s
(`min(30000, 64000) = 30000`). -/
theorem reconnect_backoff_bound_witness :
    (6 : ℕ) ≤ 6 ∧
    (nextWaitMillis (applyFailures initConn 6) = min 30000 (1000 * 2 ^ 6) ∧
      nextWaitMillis (applyFailures initConn 6) =
        (if (6 : ℕ) ≤ 4 then 1000 * 2 ^ 6 else 30000) ∧
      (successStep (applyFailures initConn 6)).attempt = 0 ∧
      nextWaitMillis (successStep (applyFailures initConn 6)) = 1000) :=
  ⟨by decide, reconnect_backoff_bound 6 (by decide)⟩

/-! ### Claim theorems: health check -/

/-- C6 counterexample: at 15 s of staleness (past the 10 s threshold) the
health check queues the cached best-bid-ask snapshot and does **not**
re-issue the upstream subscribe command; at 35 s it resubscribes the topic
and does **not** tear down and rebuild the connection.  This contradicts the
claim's "re-issues the upstream subscribe at 10 s" and "full reconnect
beyond 30 s". -/
theorem health_check_actions_differ :
    healthCheckTick 15000 true true = [HealthAction.queueCachedUpdate] ∧
    HealthAction.resubscribeTopic ∉ healthCheckTick 15000 true true ∧
    healthCheckTick 35000 true true =
      [HealthAction.queueCachedUpdate, HealthAction.resubscribeTopic] ∧
    HealthAction.fullReconnect ∉ healthCheckTick 35000 true true :=
  ⟨by decide, by decide, by decide, by decide⟩

/-- C6 amended: past 10 s of staleness with a live subscription the health
check replays the WebSocket's cached best-bid-ask (when the cache has one);
only past 30 s does it re-issue the topic subscription (unsubscribe, then
subscribe again after 1 s) — still without touching the socket; it never
performs a full connection teardown/rebuild. -/
theorem health_check_recovery (ts : ℕ) (sub cache : Bool)
    (h10 : 10000 < ts) (hsub : sub = true) :
    (cache = true → healthCheckTick ts sub cache =
        HealthAction.queueCachedUpdate ::
          (if 30000 < ts then [HealthAction.resubscribeTopic] else [])) ∧
    (30000 < ts → HealthAction.resubscribeTopic ∈ healthCheckTick ts sub cache) ∧
    (ts ≤ 30000 → HealthAction.resubscribeTopic ∉ healthCheckTick ts sub cache) ∧
    (∀ (a : ℕ) (b c : Bool), HealthAction.fullReconnect ∉ healthCheckTick a b c) := by
  subst hsub
  refine ⟨?_, ?_, ?_, ?_⟩
  · intro hc
    subst hc
    simp [healthCheckTick, h10]
  · intro h30
    simp [healthCheckTick, h10, h30]
  · intro h30
    have : ¬ (30000 < ts) := by omega
    rcases cache with _ | _ <;> simp [healthCheckTick, h10, this]
  · intro a b c
    unfold healthCheckTick
    split_ifs <;> simp

/-- Witness for C6 amended at 35 s staleness, subscribed, cache populated. -/
theorem health_check_recovery_witness :
    10000 < 35000 ∧ true = true ∧
    ((true = true → healthCheckTick 35000 true true =
        HealthAction.queueCachedUpdate ::
          (if 30000 < 35000 then [HealthAction.resubscribeTopic] else [])) ∧
      (30000 < 35000 → HealthAction.resubscribeTopic ∈ healthCheckTick 35000 true true) ∧
      (35000 ≤ 30000 → HealthAction.resubscribeTopic ∉ healthCheckTick 35000 true true) ∧
      (∀ (a : ℕ) (b c : Bool), HealthAction.fullReconnect ∉ healthCheckTick a b c)) :=
  ⟨by decide, rfl, health_check_recovery 35000 true true (by decide) rfl⟩

/-! ### Claim theorems: subscription registry (spec-modelled) -/

lemma applyOp_cap (r : Registry) (op : RegOp) : (applyOp r op).cap = r.cap := by
  cases op with
  | sub ch sym =>
    show (subscribe r ch sym).1.cap = r.cap
    unfold subscribe
    rcases findSub r ch sym with _ | s
    · split_ifs <;> rfl
    · rfl
  | unsub ch sym =>
    show (unsubscribe r ch sym).1.cap = r.cap
    unfold unsubscribe
    rcases findSub r ch sym with _ | s
    · rfl
    · dsimp only
      split_ifs <;> rfl

lemma applyOp_count (r : Registry) (op : RegOp) (h : activeCount r ≤ r.cap) :
    activeCount (applyOp r op) ≤ r.cap := by
  cases op with
  | sub ch sym =>
    show activeCount (subscribe r ch sym).1 ≤ r.cap
    unfold subscribe
    rcases findSub r ch sym with _ | s
    · split_ifs with hcap
      · exact h
      · simp only [activeCount, List.length_append, List.length_singleton] at *
        omega
    · simpa [activeCount] using h
  | unsub ch sym =>
    show activeCount (unsubscribe r ch sym).1 ≤ r.cap
    unfold unsubscribe
    rcases findSub r ch sym with _ | s
    · exact h
    · dsimp only
      split_ifs with hone
      · exact le_trans (List.length_filter_le _ _) h
      · simpa [activeCount] using h

lemma applyOps_count (ops : List RegOp) :
    ∀ r : Registry, activeCount r ≤ r.cap → activeCount (applyOps r ops) ≤ r.cap := by
  induction ops with
  | nil => intro r h; exact h
  | cons op ops ih =>
    intro r h
    have h1 : activeCount (applyOp r op) ≤ (applyOp r op).cap := by
      rw [applyOp_cap]; exact applyOp_count r op h
    have := ih (applyOp r op) h1
    rw [applyOp_cap] at this
    exact this

/-- C3: subscribing a fresh (channel,symbol) key while the registry already
holds `cap` live subscriptions fails with `SubscriptionLimitExceeded`,
leaves the registry unchanged, and issues no upstream command; and under any
sequence of subscribe/unsubscribe operations the number of live
subscriptions never exceeds the cap. -/
theorem subscription_cap_enforced (r : Registry) (ch sym : String)
    (habs : findSub r ch sym = none) (hfull : r.cap ≤ activeCount r) :
    subscribe r ch sym = (r, SubscribeResult.limitExceeded, []) ∧
    (∀ (r0 : Registry) (ops : List RegOp), activeCount r0 ≤ r0.cap →
      activeCount (applyOps r0 ops) ≤ r0.cap) := by
  constructor
  · unfold subscribe
    rw [habs]
    dsimp only
    rw [if_pos hfull]
  · intro r0 ops h0
    exact applyOps_count ops r0 h0

set_option maxRecDepth 8000 in
/-- Witness for C3 at a registry holding 250 live subscriptions with
cap 250 and a fresh key. -/
theorem subscription_cap_enforced_witness :
    findSub ⟨List.replicate 250 ⟨"ticker", "BTCPERP", 1⟩, 250⟩ "trades" "BTCPERP" = none ∧
    (⟨List.replicate 250 ⟨"ticker", "BTCPERP", 1⟩, 250⟩ : Registry).cap ≤
      activeCount ⟨List.replicate 250 ⟨"ticker", "BTCPERP", 1⟩, 250⟩ ∧
    (subscribe ⟨List.replicate 250 ⟨"ticker", "BTCPERP", 1⟩, 250⟩ "trades" "BTCPERP" =
        (⟨List.replicate 250 ⟨"ticker", "BTCPERP", 1⟩, 250⟩,
          SubscribeResult.limitExceeded, []) ∧
      (∀ (r0 : Registry) (ops : List RegOp), activeCount r0 ≤ r0.cap →
        activeCount (applyOps r0 ops) ≤ r0.cap)) :=
  ⟨by decide, by decide,
    subscription_cap_enforced ⟨List.replicate 250 ⟨"ticker", "BTCPERP", 1⟩, 250⟩
      "trades" "BTCPERP" (by decide) (by decide)⟩

lemma subKey_self (ch sym : String) (n : ℕ) : subKey ch sym ⟨ch, sym, n⟩ = true := by
  simp [subKey]

lemma subscribe_existing (r : Registry) (ch sym : String) (n : ℕ)
    (habs : findSub r ch sym = none) :
    subscribe { r with subs := r.subs ++ [⟨ch, sym, n⟩] } ch sym =
      ({ r with subs := r.subs ++ [⟨ch, sym, n + 1⟩] },
       SubscribeResult.ok (n + 1), []) := by
  have hfind : findSub { r with subs := r.subs ++ [⟨ch, sym, n⟩] } ch sym =
      some ⟨ch, sym, n⟩ := by
    unfold findSub at habs ⊢
    rw [List.find?_append, habs]
    simp [subKey_self]
  unfold subscribe
  rw [hfind]
  dsimp only
  congr 1
  rw [List.map_append]
  have h1 : r.subs.map (fun x =>
      if subKey ch sym x then { x with refcount := x.refcount + 1 } else x) = r.subs := by
    have := (List.find?_eq_none).1 habs
    calc r.subs.map (fun x =>
        if subKey ch sym x then { x with refcount := x.refcount + 1 } else x)
        = r.subs.map id := by
          apply List.map_congr_left
          intro a ha
          rw [if_neg (by simpa using this a ha)]
          rfl
      _ = r.subs := List.map_id r.subs
  rw [h1]
  simp [subKey_self]

lemma subscribeTimes_state (r : Registry) (ch sym : String)
    (habs : findSub r ch sym = none) (hroom : activeCount r < r.cap) :
    ∀ n : ℕ, 1 ≤ n →
      subscribeTimes r ch sym n =
        ({ r with subs := r.subs ++ [⟨ch, sym, n⟩] },
         [UpstreamCmd.subscribeCmd ch sym], some (SubscribeResult.ok n)) := by
  intro n hn
  induction n with
  | zero => omega
  | succ n ih =>
    rcases Nat.eq_or_lt_of_le hn with h1 | h2
    · obtain rfl : n = 0 := by omega
      show subscribeTimes r ch sym 1 = _
      unfold subscribeTimes subscribeTimes
      dsimp only
      unfold subscribe
      rw [habs]
      dsimp only
      rw [if_neg (by omega)]
      simp
    · have hn' : 1 ≤ n := by omega
      show subscribeTimes r ch sym (n + 1) = _
      unfold subscribeTimes
      rw [ih hn']
      dsimp only
      rw [subscribe_existing r ch sym n habs]
      simp

/-- C7: subscribing the same fresh (channel,symbol) key `N ≥ 1` times (the
registry below the cap) issues exactly one upstream subscribe command in
total — only the first call issues it — and the `N`-th call returns
refcount `N`. -/
theorem subscribe_dedup (r : Registry) (ch sym : String) (N : ℕ)
    (habs : findSub r ch sym = none) (hroom : activeCount r < r.cap)
    (hN : 1 ≤ N) :
    (subscribeTimes r ch sym N).2.1 = [UpstreamCmd.subscribeCmd ch sym] ∧
    (subscribeTimes r ch sym N).2.1.length = 1 ∧
    (subscribeTimes r ch sym N).2.2 = some (SubscribeResult.ok N) := by
  rw [subscribeTimes_state r ch sym habs hroom N hN]
  exact ⟨rfl, rfl, rfl⟩

/-- Witness for C7: three subscribes to a fresh key on an empty registry
with cap 250 issue one upstream command and end at refcount 3. -/
theorem subscribe_dedup_witness :
    findSub ⟨[], 250⟩ "ticker" "BTCPERP" = none ∧
    activeCount ⟨[], 250⟩ < 250 ∧ (1 : ℕ) ≤ 3 ∧
    ((subscribeTimes ⟨[], 250⟩ "ticker" "BTCPERP" 3).2.1 =
        [UpstreamCmd.subscribeCmd "ticker" "BTCPERP"] ∧
      (subscribeTimes ⟨[], 250⟩ "ticker" "BTCPERP" 3).2.1.length = 1 ∧
      (subscribeTimes ⟨[], 250⟩ "ticker" "BTCPERP" 3).2.2 =
        some (SubscribeResult.ok 3)) :=
  ⟨by decide, by decide, by decide,
    subscribe_dedup ⟨[], 250⟩ "ticker" "BTCPERP" 3 (by decide) (by decide) (by decide)⟩

/-! ### Claim theorems: market list subscription limiting -/

/-- C10: for every ticker list and selection, the market-list component
subscribes to at most 31 symbols — `topMarkets` (sorted by volume
descending, so the 30 highest-volume tickers, proven extremal below) plus at
most one selected symbol, added exactly when it is not already among the top
markets — staying strictly below the 250-channel cap. -/
theorem marketlist_subscription_bound (tickers : List Ticker) (sel : Option String) :
    (marketListSubscriptions tickers sel).length ≤ 31 ∧
    (31 : ℕ) < 250 ∧
    (topMarketSymbols tickers).length ≤ 30 ∧
    (selectedSymbolArray sel tickers).length ≤ 1 ∧
    (∀ s, sel = some s →
      (s ∈ selectedSymbolArray sel tickers ↔ s ∉ topMarketSymbols tickers)) ∧
    List.Sorted volDesc (topMarkets tickers) ∧
    (∀ t ∈ topMarkets tickers, t ∈ tickers) ∧
    (∀ t ∈ topMarkets tickers, ∀ u ∈ tickers, u ∉ topMarkets tickers →
      u.quote_volume ≤ t.quote_volume) := by
  have hlen : (topMarketSymbols tickers).length ≤ 30 := by
    simp only [topMarketSymbols, topMarkets, List.length_map, List.length_take]
    exact min_le_left _ _
  have hsel : (selectedSymbolArray sel tickers).length ≤ 1 := by
    rcases sel with _ | s
    · simp [selectedSymbolArray]
    · simp only [selectedSymbolArray]
      split_ifs <;> simp
  have hsorted : List.Sorted volDesc (tickers.insertionSort volDesc) :=
    List.sorted_insertionSort volDesc tickers
  have hsortedTop : List.Sorted volDesc (topMarkets tickers) :=
    List.Pairwise.sublist (List.take_sublist _ _) hsorted
  have hmem : ∀ t ∈ topMarkets tickers, t ∈ tickers := by
    intro t ht
    have h1 : t ∈ tickers.insertionSort volDesc :=
      List.mem_of_mem_take ht
    exact (List.perm_insertionSort volDesc tickers).subset h1
  refine ⟨?_, by omega, hlen, hsel, ?_, hsortedTop, hmem, ?_⟩
  · simp only [marketListSubscriptions, List.length_append]
    omega
  · intro s hs
    subst hs
    simp only [selectedSymbolArray]
    rcases hany : (topMarkets tickers).any (fun t => t.symbol == s) with _ | _
    · rw [if_neg (by simp [hany])]
      simp only [List.mem_singleton]
      constructor
      · intro _
        intro hmem'
        rw [List.any_eq_false] at hany
        simp only [topMarketSymbols, List.mem_map] at hmem'
        obtain ⟨t, ht, rfl⟩ := hmem'
        exact hany t ht (by simp)
      · intro _
        trivial
    · rw [if_pos (by simp [hany])]
      simp only [List.not_mem_nil, false_iff, not_not]
      rw [List.any_eq_true] at hany
      obtain ⟨t, ht, hts⟩ := hany
      simp only [topMarketSymbols, List.mem_map]
      exact ⟨t, ht, by simpa using hts⟩
  · intro t ht u hu hunot
    have hperm := List.perm_insertionSort volDesc tickers
    have husort : u ∈ tickers.insertionSort volDesc := hperm.symm.subset hu
    have hsplit : tickers.insertionSort volDesc =
        topMarkets tickers ++ (tickers.insertionSort volDesc).drop 30 := by
      rw [topMarkets]
      exact (List.take_append_drop 30 _).symm
    rw [hsplit] at hsorted husort
    have hdrop : u ∈ (tickers.insertionSort volDesc).drop 30 := by
      rcases List.mem_append.1 husort with h | h
      · exact absurd h hunot
      · exact h
    have := (List.pairwise_append.1 hsorted).2.2 t ht u hdrop
    exact this

/-- Witness for C10 at a concrete two-ticker list with a selected symbol not
among them. -/
theorem marketlist_subscription_bound_witness :
    (marketListSubscriptions [⟨"BTCPERP", 5⟩, ⟨"ETHPERP", 3⟩] (some "SOLPERP")).length ≤ 31 ∧
    (31 : ℕ) < 250 ∧
    (topMarketSymbols [⟨"BTCPERP", 5⟩, ⟨"ETHPERP", 3⟩]).length ≤ 30 ∧
    (selectedSymbolArray (some "SOLPERP") [⟨"BTCPERP", 5⟩, ⟨"ETHPERP", 3⟩]).length ≤ 1 ∧
    (∀ s, (some "SOLPERP" : Option String) = some s →
      (s ∈ selectedSymbolArray (some "SOLPERP") [⟨"BTCPERP", 5⟩, ⟨"ETHPERP", 3⟩] ↔
        s ∉ topMarketSymbols [⟨"BTCPERP", 5⟩, ⟨"ETHPERP", 3⟩])) ∧
    List.Sorted volDesc (topMarkets [⟨"BTCPERP", 5⟩, ⟨"ETHPERP", 3⟩]) ∧
    (∀ t ∈ topMarkets [⟨"BTCPERP", 5⟩, ⟨"ETHPERP", 3⟩],
      t ∈ ([⟨"BTCPERP", 5⟩, ⟨"ETHPERP", 3⟩] : List Ticker)) ∧
    (∀ t ∈ topMarkets [⟨"BTCPERP", 5⟩, ⟨"ETHPERP", 3⟩],
      ∀ u ∈ ([⟨"BTCPERP", 5⟩, ⟨"ETHPERP", 3⟩] : List Ticker),
        u ∉ topMarkets [⟨"BTCPERP", 5⟩, ⟨"ETHPERP", 3⟩] →
        u.quote_volume ≤ t.quote_volume) :=
  marketlist_subscription_bound [⟨"BTCPERP", 5⟩, ⟨"ETHPERP", 3⟩] (some "SOLPERP")

end MarketData
